import Mathlib

/-!
Verification of the `polymarket-arb` trading agent against its
natural-language specification.

The development shallowly embeds the Rust sources:

* `src/markets/fair_value.rs` — the pure fair-value function;
* `src/strategy/risk.rs`      — position sizing and the daily kill switch;
* `src/feeds/aggregator.rs`   — the price aggregator (stale filter, median fuse);
* `src/strategy/divergence.rs`— the divergence evaluator loop body;
* `src/executor/mod.rs`       — the scheduled-cancel delay computation.

`f64` arithmetic is modelled exactly over `ℚ`; machine timestamps (`u64`
milliseconds) are modelled as `ℕ`, with `u64::saturating_sub` becoming
truncated subtraction.  Stateful loops become explicit state-passing step
functions.  The fair value fed into the divergence evaluator is produced
upstream by `fair_value::binary_fair_value` (a function the snapshot does
not contain); the evaluator consumes it as a single rational input, so it
is a parameter of each evaluator iteration here.
-/

namespace PolymarketArb

/-! ## Fair value (`src/markets/fair_value.rs`) -/

/-- Embedding of `fair_yes` from `src/markets/fair_value.rs:6-23`.
Rust `x.clamp(lo, hi)` is `min (max x lo) hi` (for `lo ≤ hi`). -/
def fair_yes (spot_now open_price time_remaining_frac : ℚ) : ℚ :=
  if open_price ≤ 0 ∨ spot_now ≤ 0 then 1/2
  else if time_remaining_frac < 0 then 1/2
  else
    let move_pct := (spot_now - open_price) / open_price
    let elapsed_frac := min (max (1 - time_remaining_frac) 0) 1
    let certainty := 3/10 + 7/10 * elapsed_frac
    let shift := min (max (move_pct * 80 * certainty) (-(9/20))) (9/20)
    min (max (1/2 + shift) (1/20)) (19/20)

/-- Embedding of `fair_no` from `src/markets/fair_value.rs:25-27`. -/
def fair_no (spot_now open_price time_remaining_frac : ℚ) : ℚ :=
  1 - fair_yes spot_now open_price time_remaining_frac

/-- Claim C4's formula for `fair_yes`, transcribed from the specification's
words (refinement reference; compared against `fair_yes` above). -/
def fair_yes_claim (spot_now open_price t : ℚ) : ℚ :=
  if spot_now ≤ 0 ∨ open_price ≤ 0 ∨ t < 0 then 1/2
  else
    min (max (1/2 +
      min (max (((spot_now - open_price) / open_price) * 80 *
        (3/10 + 7/10 * min (max (1 - t) 0) 1)) (-(9/20))) (9/20)) (1/20)) (19/20)

/-! ## Risk manager (`src/strategy/risk.rs`) -/

/-- Edge multiplier from `src/strategy/risk.rs:70`:
`(edge / 0.05).min(2.0).max(1.0)`. -/
def edge_multiplier (edge : ℚ) : ℚ :=
  max (min (edge / (1/20)) 2) 1

/-- The value computed by `position_size` before the absolute cap is
applied (`src/strategy/risk.rs:68-73`): `max_shares * price` where
`max_shares = size / price.max(0.01)`. -/
def position_size_precap (bankroll max_position_pct edge price : ℚ) : ℚ :=
  let base := bankroll * max_position_pct
  let size := base * edge_multiplier edge
  let max_shares := size / max price (1/100)
  max_shares * price

/-- Embedding of `RiskManager::position_size` from
`src/strategy/risk.rs:68-74`: the pre-cap value capped at
`bankroll * 0.02`. -/
def position_size (bankroll max_position_pct edge price : ℚ) : ℚ :=
  min (position_size_precap bankroll max_position_pct edge price) (bankroll * (1/50))

/-- Mutable state of `RiskManager` (`src/strategy/risk.rs:7-17`). -/
structure RiskState where
  bankroll : ℚ
  max_position_pct : ℚ
  max_daily_loss_pct : ℚ
  max_open_positions : ℕ
  daily_pnl : ℚ
  open_positions : ℕ
  day_start_epoch : ℕ
  killed : Bool
deriving DecidableEq, Repr

/-- Embedding of `maybe_reset_day` (`src/strategy/risk.rs:89-96`); the
current day epoch (`current_day_epoch()`, epoch seconds / 86400) is passed
in as `today`. -/
def maybe_reset_day (s : RiskState) (today : ℕ) : RiskState :=
  if today ≠ s.day_start_epoch then
    { s with daily_pnl := 0, killed := false, day_start_epoch := today }
  else s

/-- Embedding of `can_trade` (`src/strategy/risk.rs:38-66`): returns the
boolean result together with the updated state. -/
def can_trade (s : RiskState) (today : ℕ) : Bool × RiskState :=
  let s := maybe_reset_day s today
  if s.killed then (false, s)
  else if s.open_positions ≥ s.max_open_positions then (false, s)
  else if s.daily_pnl < -(s.bankroll * s.max_daily_loss_pct) then
    (false, { s with killed := true })
  else (true, s)

/-- Embedding of `record_fill` (`src/strategy/risk.rs:76-78`). -/
def record_fill (s : RiskState) : RiskState :=
  { s with open_positions := s.open_positions + 1 }

/-- Embedding of `record_close` (`src/strategy/risk.rs:80-83`); `usize`
saturating decrement becomes truncated `ℕ` subtraction. -/
def record_close (s : RiskState) (pnl : ℚ) : RiskState :=
  { s with open_positions := s.open_positions - 1, daily_pnl := s.daily_pnl + pnl }

/-- Embedding of `update_bankroll` (`src/strategy/risk.rs:85-87`). -/
def update_bankroll (s : RiskState) (balance : ℚ) : RiskState :=
  { s with bankroll := balance }

/-- One externally observable operation on the risk manager.  A
`canTrade` call carries the day epoch it observes. -/
inductive RiskOp where
  | canTrade (today : ℕ)
  | recordFill
  | recordClose (pnl : ℚ)
  | updateBankroll (balance : ℚ)
deriving DecidableEq, Repr

/-- State transition for one risk-manager operation. -/
def riskStep (s : RiskState) : RiskOp → RiskState
  | .canTrade today => (can_trade s today).2
  | .recordFill => record_fill s
  | .recordClose pnl => record_close s pnl
  | .updateBankroll b => update_bankroll s b

/-- Run a sequence of risk-manager operations. -/
def riskRun (s : RiskState) : List RiskOp → RiskState
  | [] => s
  | op :: rest => riskRun (riskStep s op) rest

/-- The boolean results of the `can_trade` calls in an operation
sequence, in order. -/
def canTradeResults (s : RiskState) : List RiskOp → List Bool
  | [] => []
  | .canTrade today :: rest =>
    (can_trade s today).1 :: canTradeResults (can_trade s today).2 rest
  | .recordFill :: rest => canTradeResults (riskStep s .recordFill) rest
  | .recordClose pnl :: rest => canTradeResults (riskStep s (.recordClose pnl)) rest
  | .updateBankroll b :: rest => canTradeResults (riskStep s (.updateBankroll b)) rest

/-- Holds (`true`) iff every `canTrade` operation in the list observes
day epoch `e`. -/
def opsSameDay (e : ℕ) : List RiskOp → Bool
  | [] => true
  | .canTrade today :: rest => today == e && opsSameDay e rest
  | .recordFill :: rest => opsSameDay e rest
  | .recordClose _ :: rest => opsSameDay e rest
  | .updateBankroll _ :: rest => opsSameDay e rest

/-! ## Price aggregator (`src/feeds/aggregator.rs`) -/

/-- Embedding of `PriceTick` (`src/feeds/mod.rs:14-19`). -/
structure PriceTick where
  source : String
  price : ℚ
  timestamp_ms : ℕ
deriving DecidableEq, Repr

/-- Embedding of `FeedEntry` (`src/feeds/aggregator.rs:17-20`). -/
structure FeedEntry where
  price : ℚ
  timestamp_ms : ℕ
deriving DecidableEq, Repr

/-- Embedding of `PriceState` (`src/feeds/aggregator.rs:9-15`). -/
structure PriceState where
  spot_price : ℚ
  implied_vol : Option ℚ
  feed_count : ℕ
  timestamp_ms : ℕ
deriving DecidableEq, Repr

/-- The aggregator task's local state: the per-source latest tick map
(`feeds`) and the running implied vol (`current_iv`)
(`src/feeds/aggregator.rs:28-29`).  The `HashMap` is modelled as an
association list; `insertFeed` below replaces the entry for a key. -/
structure AggState where
  feeds : List (String × FeedEntry)
  current_iv : Option ℚ
deriving DecidableEq, Repr

/-- Embedding of `HashMap::insert`: replace the entry for `src`, or
append it. -/
def insertFeed (src : String) (e : FeedEntry) :
    List (String × FeedEntry) → List (String × FeedEntry)
  | [] => [(src, e)]
  | (s, e') :: rest =>
    if s = src then (src, e) :: rest else (s, e') :: insertFeed src e rest

/-- The freshness test from `src/feeds/aggregator.rs:53`:
`now_ms.saturating_sub(e.timestamp_ms) < stale_ms`. -/
def entryFresh (stale_secs now_ms : ℕ) (e : FeedEntry) : Bool :=
  now_ms - e.timestamp_ms < stale_secs * 1000

/-- The `active_prices` vector of `src/feeds/aggregator.rs:51-55`: prices
of all stored entries passing the freshness test. -/
def freshPrices (stale_secs now_ms : ℕ) (feeds : List (String × FeedEntry)) : List ℚ :=
  (feeds.filter fun p => entryFresh stale_secs now_ms p.2).map fun p => p.2.price

/-- Median of `src/feeds/aggregator.rs:62-68`: sort ascending; even
length averages the two middle values, odd length takes the middle. -/
def medianOf (l : List ℚ) : ℚ :=
  let s := l.insertionSort (· ≤ ·)
  if l.length % 2 = 0 then
    (s.getD (l.length / 2 - 1) 0 + s.getD (l.length / 2) 0) / 2
  else s.getD (l.length / 2) 0

/-- One iteration of the aggregator loop (`src/feeds/aggregator.rs:31-85`)
on the arrival of `tick`; `now_ms` is the wall clock read at line 45-48.
Returns the new state and the published `PriceState`, if any. -/
def stepTick (stale_secs : ℕ) (st : AggState) (tick : PriceTick) (now_ms : ℕ) :
    AggState × Option PriceState :=
  if tick.source = "deribit_iv" then
    ({ st with current_iv := some tick.price }, none)
  else
    let feeds := insertFeed tick.source ⟨tick.price, tick.timestamp_ms⟩ st.feeds
    let active := freshPrices stale_secs now_ms feeds
    let st' : AggState := { st with feeds := feeds }
    if active.isEmpty then (st', none)
    else
      (st', some { spot_price := medianOf active
                   implied_vol := st.current_iv
                   feed_count := active.length
                   timestamp_ms := now_ms })

/-! ## Divergence evaluator (`src/strategy/divergence.rs`) -/

/-- Embedding of `Side` (`src/strategy/divergence.rs:15-19`). -/
inductive Side where
  | buyYes
  | buyNo
deriving DecidableEq, Repr

/-- Embedding of `Signal` (`src/strategy/divergence.rs:30-41`). -/
structure Signal where
  market_name : String
  condition_id : String
  token_id : String
  side : Side
  fair_value : ℚ
  clob_mid : ℚ
  edge_pct : ℚ
  price : ℚ
  size_usd : ℚ
deriving DecidableEq, Repr

/-- Embedding of `OpenDivergence` (`src/strategy/divergence.rs:43-47`);
the `Instant` is an abstract `ℕ` timestamp. -/
structure OpenDivergence where
  opened_at : ℕ
  market_name : String
  peak_edge : ℚ
deriving DecidableEq, Repr

/-- An evaluator output: either a `Signal` sent on the signal channel
(`src/strategy/divergence.rs:173`) or the `CONVERGED` event logged at
`src/strategy/divergence.rs:176-184`. -/
inductive DivEvent where
  | signal (s : Signal)
  | converged (market_name : String) (duration_ms : ℕ) (peak_edge : ℚ)
deriving DecidableEq, Repr

/-- Embedding of `TokenBook` (`src/markets/book.rs:10-15`). -/
structure TokenBook where
  best_bid : ℚ
  best_ask : ℚ
  mid : ℚ
  timestamp_ms : ℕ
deriving DecidableEq, Repr

/-- Embedding of `Market` (`src/markets/discovery.rs:11-19`), restricted
to the fields the divergence evaluator reads.  `strike` and `expiry` are
consumed only through `binary_fair_value`, whose output is the `fv` input
of an evaluator iteration. -/
structure Market where
  condition_id : String
  yes_token : String
  no_token : String
  strike : ℚ
  expiry_ms : ℕ
  title : String
deriving DecidableEq, Repr

/-- Embedding of `StrategyConfig` (`src/config.rs:10-22`). -/
structure StrategyConfig where
  seed_usd : ℚ
  min_edge : ℚ
  min_move_pct : ℚ
  max_position_pct : ℚ
  max_daily_loss_pct : ℚ
  max_open_positions : ℕ
  order_timeout_secs : ℕ
  stale_price_secs : ℕ
  late_window_guard_secs : ℕ
deriving DecidableEq, Repr

/-- Embedding of `HashMap::get` on the book snapshot
(`src/strategy/divergence.rs:90-91`). -/
def lookupBook (books : List (String × TokenBook)) (t : String) : Option TokenBook :=
  (books.find? fun p => p.1 == t).map fun p => p.2

/-- The per-iteration inputs of the evaluator loop that are produced
outside the per-market body: the fair value `fv` computed at
`src/strategy/divergence.rs:87-88` from spot, strike, expiry and vol; the
book snapshot; the result of `risk.can_trade()` (whose state machine is
embedded separately as `RiskState`); the `Instant::now()` surrogate; and
the risk sizing parameters. -/
structure EvalIter where
  fv : ℚ
  books : List (String × TokenBook)
  canTrade : Bool
  now : ℕ
  bankroll : ℚ
  max_position_pct : ℚ
deriving DecidableEq, Repr

/-- Embedding of the per-market body of the evaluator loop
(`src/strategy/divergence.rs:86-185`): given the open-divergence entry
for this market's key (its `yes_token`) and the iteration inputs, return
the updated entry and the emitted events (`continue` arms leave the entry
unchanged and emit nothing). -/
def divergence_step (cfg : StrategyConfig) (m : Market)
    (div : Option OpenDivergence) (it : EvalIter) :
    Option OpenDivergence × List DivEvent :=
  let yes_book := lookupBook it.books m.yes_token
  let no_book := lookupBook it.books m.no_token
  match yes_book with
  | none => (div, [])
  | some yb =>
    if yb.mid > 0 then
      let clob_mid := yb.mid
      let no_mid := (no_book.map TokenBook.mid).getD 0
      let pair_sum := clob_mid + no_mid
      if pair_sum > 0 ∧ (pair_sum < 9/10 ∨ pair_sum > 11/10) then (div, [])
      else
        let edge := it.fv - clob_mid
        let edge_pct := edge / clob_mid
        if |edge_pct| > cfg.min_edge then
          let d0 := div.getD ⟨it.now, m.title, 0⟩
          let d1 : OpenDivergence := { d0 with peak_edge := max d0.peak_edge |edge_pct| }
          if it.canTrade then
            let sidetok :=
              if edge > 0 then (Side.buyYes, m.yes_token, yb.best_ask)
              else (Side.buyNo, m.no_token, (no_book.map TokenBook.best_ask).getD 0)
            let price := sidetok.2.2
            if price ≤ 0 ∨ price ≥ 1 then (some d1, [])
            else
              let size_usd := position_size it.bankroll it.max_position_pct |edge_pct| price
              (some d1,
               [DivEvent.signal
                 { market_name := m.title
                   condition_id := m.condition_id
                   token_id := sidetok.2.1
                   side := sidetok.1
                   fair_value := it.fv
                   clob_mid := clob_mid
                   edge_pct := edge_pct
                   price := price
                   size_usd := size_usd }])
          else (some d1, [])
        else
          match div with
          | some d =>
            (none, [DivEvent.converged d.market_name (it.now - d.opened_at) d.peak_edge])
          | none => (none, [])
    else (div, [])

/-- Iterate `divergence_step` over a sequence of evaluator iterations,
threading the open-divergence entry and collecting events in order. -/
def divergence_run (cfg : StrategyConfig) (m : Market) :
    Option OpenDivergence → List EvalIter → Option OpenDivergence × List DivEvent
  | div, [] => (div, [])
  | div, it :: rest =>
    let out := divergence_step cfg m div it
    let outR := divergence_run cfg m out.1 rest
    (outR.1, out.2 ++ outR.2)

/-- The signals among a list of evaluator events. -/
def signalsOf (evs : List DivEvent) : List Signal :=
  evs.filterMap fun e =>
    match e with
    | .signal s => some s
    | .converged _ _ _ => none

/-! ## Executor cancel scheduling (`src/executor/mod.rs`) -/

/-- The cancel delay in seconds computed at `src/executor/mod.rs:203-204`:
`window_secs_left = (time_remaining_frac * 300.0).max(5.0) - 5.0` and
`cancel_after = window_secs_left.max(2.0)`. -/
def cancel_delay_secs (time_remaining_frac : ℚ) : ℚ :=
  let window_secs_left := max (time_remaining_frac * 300) 5 - 5
  max window_secs_left 2

/-- Modelled from the spec: the `Window` data model (spec section 3) sets
`time_remaining_frac = time_remaining / duration`.  The `Window` type and
the `divergence::evaluate` that fills `Signal.time_remaining_frac` are
referenced from `src/main.rs` but absent from the snapshot's sources. -/
def time_remaining_frac_of (time_remaining duration : ℚ) : ℚ :=
  time_remaining / duration

/-- The feed map after the aggregator stores the arriving tick
(`src/feeds/aggregator.rs:37-43`). -/
def postInsertFeeds (st : AggState) (tick : PriceTick) : List (String × FeedEntry) :=
  insertFeed tick.source ⟨tick.price, tick.timestamp_ms⟩ st.feeds

/-! ## Concrete inputs used by the claim counterexamples and witnesses -/

/-- A strategy configuration with `min_edge = 0.02`,
`late_window_guard_secs = 30` and the spec's example values elsewhere. -/
def cfg_c1 : StrategyConfig := ⟨100, 1/50, 1/1000, 1/100, 1/10, 3, 30, 30, 30⟩

/-- A five-minute up/down market. -/
def mkt_c1 : Market := ⟨"cond-1", "Y", "N", 84000, 0, "btc-updown"⟩

/-- One evaluator iteration on which every gate passes: fair value 0.60
against a 0.50 YES mid (ask 0.51), pair sum 1.0, risk allows trading. -/
def iter_c1 : EvalIter :=
  ⟨3/5, [("Y", ⟨49/100, 51/100, 1/2, 0⟩), ("N", ⟨49/100, 51/100, 1/2, 0⟩)], true, 0, 100, 1/100⟩

/-- Configuration for the C2 counterexample (same values as `cfg_c1`). -/
def cfg_c2 : StrategyConfig := ⟨100, 1/50, 1/1000, 1/100, 1/10, 3, 30, 30, 30⟩

/-- Market for the C2 counterexample. -/
def mkt_c2 : Market := ⟨"cond-2", "Y", "N", 84000, 0, "btc-updown"⟩

/-- An iteration with a wide spread: mids 0.50 but best asks 0.80; all
gates pass and the emitted price is the 0.80 ask. -/
def iter_c2 : EvalIter :=
  ⟨3/5, [("Y", ⟨1/5, 4/5, 1/2, 0⟩), ("N", ⟨1/5, 4/5, 1/2, 0⟩)], true, 0, 100, 1/100⟩

/-- The signal emitted on `iter_c2`: BuyYes at the YES best ask 0.80,
sized at the 2 USD absolute cap. -/
def sig_c2 : Signal := ⟨"btc-updown", "cond-2", "Y", Side.buyYes, 3/5, 1/2, 1/5, 4/5, 2⟩

/-- Configuration for C3 with `late_window_guard_secs = 30`. -/
def cfg_c3 : StrategyConfig := ⟨100, 1/50, 1/1000, 1/100, 1/10, 3, 30, 30, 30⟩

/-- Market for C3; its window has far less time remaining than the
late-window guard (the evaluator is never told). -/
def mkt_c3 : Market := ⟨"cond-3", "Y", "N", 84000, 0, "btc-updown"⟩

/-- An all-gates-pass iteration representing an evaluation 10 s before
window close (well inside the 30 s guard): time enters the evaluator
only through the upstream fair value. -/
def iter_c3 : EvalIter :=
  ⟨3/5, [("Y", ⟨49/100, 51/100, 1/2, 0⟩), ("N", ⟨49/100, 51/100, 1/2, 0⟩)], true, 0, 100, 1/100⟩

/-- Configuration for the C5 witness. -/
def cfg_c5 : StrategyConfig := ⟨100, 1/50, 1/1000, 1/100, 1/10, 3, 30, 30, 30⟩

/-- Market for the C5 witness. -/
def mkt_c5 : Market := ⟨"cond-5", "Y", "N", 84000, 0, "btc-updown"⟩

/-- A thin market: YES mid 0.40, NO mid 0.30, pair sum 0.70. -/
def iter_c5 : EvalIter :=
  ⟨3/5, [("Y", ⟨7/20, 9/20, 2/5, 0⟩), ("N", ⟨1/4, 7/20, 3/10, 0⟩)], true, 0, 100, 1/100⟩

/-- A killed risk state: daily loss -20 already exceeds the 10 USD cap,
`killed` latched, day epoch 19000. -/
def risk_c8 : RiskState := ⟨100, 1/100, 1/10, 3, -20, 0, 19000, true⟩

/-- Same-day operations for the C8 witness: two `can_trade` calls on day
19000 around a losing close. -/
def ops_c8 : List RiskOp := [.canTrade 19000, .recordClose (-5), .canTrade 19000]

/-! ## Helper lemmas -/

theorem clamp_bounds (x : ℚ) :
    1/20 ≤ min (max x (1/20)) (19/20) ∧ min (max x (1/20)) (19/20) ≤ 19/20 :=
  ⟨le_min (le_trans (le_refl _) (le_max_right x (1/20)) : (1:ℚ)/20 ≤ max x (1/20))
    (by norm_num), min_le_right _ _⟩

/-! ## Claim theorems -/

/-- Claim C4: `fair_yes` returns 0.50 on non-positive prices or negative
`time_remaining_frac`, otherwise the clamped shifted value described by
the spec; it always lies in `[0.05, 0.95]`; and `fair_no = 1 - fair_yes`. -/
theorem c4_fair_value_formula (s o t : ℚ) :
    fair_yes s o t = fair_yes_claim s o t ∧
    1/20 ≤ fair_yes s o t ∧ fair_yes s o t ≤ 19/20 ∧
    fair_no s o t = 1 - fair_yes s o t := by
  refine ⟨?_, ?_, ?_, rfl⟩
  · unfold fair_yes fair_yes_claim
    split_ifs <;> first | rfl | tauto
  · unfold fair_yes
    split_ifs
    · norm_num
    · norm_num
    · exact (clamp_bounds _).1
  · unfold fair_yes
    split_ifs
    · norm_num
    · norm_num
    · exact (clamp_bounds _).2

/-- Claim C7, counterexample: with `bankroll = 100`,
`max_position_pct = 0.01` and `edge = 0.05 ≥ 0.05`, the price `0.005`
makes the pre-cap value `0.5`, strictly below
`bankroll * max_position_pct = 1`, because share count is computed
against `max(price, 0.01)`. -/
theorem c7_precap_counterexample :
    position_size_precap 100 (1/100) (1/20) (1/200) = 1/2 ∧
    ((1:ℚ)/2) < 100 * (1/100) ∧ (1/20 : ℚ) ≥ 1/20 := by
  refine ⟨?_, by norm_num, le_refl _⟩
  unfold position_size_precap edge_multiplier
  norm_num

/-- Claim C7, amended: `position_size` never exceeds `bankroll * 0.02`;
the edge multiplier is at least 1 for every edge; and when
`edge ≥ 0.05`, `price ≥ 0.01` and `bankroll * max_position_pct ≥ 0`, the
pre-cap value is at least `bankroll * max_position_pct`. -/
theorem c7_position_size_caps (bankroll mpp edge price : ℚ) :
    position_size bankroll mpp edge price ≤ bankroll * (1/50) ∧
    1 ≤ edge_multiplier edge ∧
    (1/20 ≤ edge → 1/100 ≤ price → 0 ≤ bankroll * mpp →
      bankroll * mpp ≤ position_size_precap bankroll mpp edge price) := by
  refine ⟨min_le_right _ _, le_max_right _ _, ?_⟩
  intro _ hp hb
  unfold position_size_precap
  have hmax : max price (1/100) = price := max_eq_left hp
  have hp0 : price ≠ 0 := by
    intro h
    rw [h] at hp
    norm_num at hp
  rw [hmax, div_mul_cancel₀ _ hp0]
  calc bankroll * mpp = bankroll * mpp * 1 := (mul_one _).symm
    _ ≤ bankroll * mpp * edge_multiplier edge :=
        mul_le_mul_of_nonneg_left (le_max_right _ _) hb

/-- Claim C7, witness for the amended theorem at
`bankroll = 100`, `max_position_pct = 0.01`, `edge = 0.05`,
`price = 0.5`. -/
theorem c7_position_size_caps_witness :
    position_size 100 (1/100) (1/20) (1/2) ≤ 100 * (1/50) ∧
    (1 : ℚ) ≤ edge_multiplier (1/20) ∧
    (100 : ℚ) * (1/100) ≤ position_size_precap 100 (1/100) (1/20) (1/2) := by
  have h := c7_position_size_caps 100 (1/100) (1/20) (1/2)
  exact ⟨h.1, h.2.1, h.2.2 (by norm_num) (by norm_num) (by norm_num)⟩

/-- Claim C9, counterexample: for a window of duration 600 s with 600 s
remaining at the signal, the code schedules the cancel after 295 s
(`time_remaining_frac * 300` with the duration hard-coded as 300),
whereas the claim's `max(2, time_remaining_at_signal - 5)` is 595 s. -/
theorem c9_cancel_delay_counterexample :
    cancel_delay_secs (time_remaining_frac_of 600 600) = 295 ∧
    max 2 ((600:ℚ) - 5) = 595 ∧ (295:ℚ) ≠ 595 := by
  refine ⟨?_, ?_, by norm_num⟩
  · unfold cancel_delay_secs time_remaining_frac_of
    norm_num
  · norm_num

/-- Claim C9, amended: the scheduled cancel delay equals
`max(2, time_remaining_frac * 300 - 5)` seconds; in particular it equals
`max(2, time_remaining_at_signal - 5)` exactly for the 300-second
(five-minute) window duration. -/
theorem c9_cancel_delay_formula :
    (∀ f : ℚ, cancel_delay_secs f = max 2 (f * 300 - 5)) ∧
    (∀ T : ℚ, cancel_delay_secs (time_remaining_frac_of T 300) = max 2 (T - 5)) := by
  have h : ∀ f : ℚ, cancel_delay_secs f = max 2 (f * 300 - 5) := by
    intro f
    unfold cancel_delay_secs
    have h5 : max (f * 300) 5 - 5 = max (f * 300 - 5) 0 := by
      rw [← max_sub_sub_right (f * 300) 5 5]
      norm_num
    rw [h5, max_assoc]
    rw [show max (0:ℚ) 2 = 2 by norm_num, max_comm]
  refine ⟨h, fun T => ?_⟩
  have hT : time_remaining_frac_of T 300 * 300 = T := by
    unfold time_remaining_frac_of
    field_simp
  rw [h, hT]

theorem mem_insertFeed_self (src : String) (e : FeedEntry) (l : List (String × FeedEntry)) :
    (src, e) ∈ insertFeed src e l := by
  induction l with
  | nil => simp [insertFeed]
  | cons p rest ih =>
    obtain ⟨s, e'⟩ := p
    unfold insertFeed
    by_cases h : s = src
    · simp [h]
    · simp only [if_neg h, List.mem_cons]
      exact Or.inr ih

theorem stepTick_publish_spec (stale : ℕ) (st : AggState) (tick : PriceTick) (now : ℕ)
    (hsrc : tick.source ≠ "deribit_iv") :
    ((stepTick stale st tick now).2 = none ↔
        freshPrices stale now (postInsertFeeds st tick) = []) ∧
    (∀ ps, (stepTick stale st tick now).2 = some ps →
      ps = { spot_price := medianOf (freshPrices stale now (postInsertFeeds st tick))
             implied_vol := st.current_iv
             feed_count := (freshPrices stale now (postInsertFeeds st tick)).length
             timestamp_ms := now }) := by
  unfold stepTick postInsertFeeds
  rw [if_neg hsrc]
  dsimp only
  split_ifs with h
  · rw [List.isEmpty_iff] at h
    refine ⟨by simp [h], ?_⟩
    intro ps hps
    exact absurd hps (by simp)
  · rw [List.isEmpty_iff] at h
    refine ⟨by simp [h], ?_⟩
    intro ps hps
    simp only [Option.some.injEq] at hps
    exact hps.symm

/-- Claim C6, counterexample: with `stale_price_secs = 1`, a tick whose
age at publish time is exactly `1 * 1000` ms is dropped by the strict
`<` test, so a single-feed aggregator publishes nothing, whereas the
claim admits a tick whose age equals the threshold. -/
theorem c6_boundary_tick_excluded :
    (stepTick 1 ⟨[], none⟩ ⟨"binance", 50000, 0⟩ 1000).2 = none ∧
    (1000 : ℕ) - 0 = 1 * 1000 ∧
    entryFresh 1 1000 ⟨50000, 0⟩ = false := by decide

/-- Claim C6, amended: a stored tick participates in the fused spot
exactly when its age `now_ms - timestamp_ms` is strictly below
`stale_price_secs * 1000` (a tick whose age equals the threshold is
dropped), and every published spot is the median of exactly the
strictly-fresh entries. -/
theorem c6_stale_exclusion (stale : ℕ) (st : AggState) (tick : PriceTick) (now : ℕ)
    (hsrc : tick.source ≠ "deribit_iv") :
    ((tick.source, (⟨tick.price, tick.timestamp_ms⟩ : FeedEntry)) ∈
        (postInsertFeeds st tick).filter (fun p => entryFresh stale now p.2) ↔
      now - tick.timestamp_ms < stale * 1000) ∧
    (∀ e : FeedEntry, stale * 1000 ≤ now - e.timestamp_ms →
      entryFresh stale now e = false) ∧
    (∀ ps, (stepTick stale st tick now).2 = some ps →
      ps.spot_price = medianOf (freshPrices stale now (postInsertFeeds st tick))) := by
  refine ⟨?_, ?_, ?_⟩
  · rw [List.mem_filter]
    constructor
    · rintro ⟨-, hf⟩
      simpa [entryFresh] using hf
    · intro h
      exact ⟨mem_insertFeed_self _ _ _, by simpa [entryFresh] using h⟩
  · intro e h
    simp only [entryFresh, decide_eq_false_iff_not, not_lt]
    exact h
  · intro ps hps
    rw [(stepTick_publish_spec stale st tick now hsrc).2 ps hps]

/-- Claim C6, witness for the amended theorem: one stale stored entry,
one fresh arriving tick; the published spot is the median of the
singleton fresh set. -/
theorem c6_stale_exclusion_witness :
    (((⟨"binance", 50000, 999000⟩ : PriceTick).source,
        (⟨50000, 999000⟩ : FeedEntry)) ∈
        (postInsertFeeds ⟨[("kraken", ⟨49000, 0⟩)], none⟩
            ⟨"binance", 50000, 999000⟩).filter
          (fun p => entryFresh 30 1000000 p.2) ↔
      (1000000 : ℕ) - 999000 < 30 * 1000) ∧
    entryFresh 30 1000000 ⟨49000, 0⟩ = false ∧
    (⟨50000, none, 1, 1000000⟩ : PriceState).spot_price =
      medianOf (freshPrices 30 1000000
        (postInsertFeeds ⟨[("kraken", ⟨49000, 0⟩)], none⟩ ⟨"binance", 50000, 999000⟩)) := by
  have h := c6_stale_exclusion 30 ⟨[("kraken", ⟨49000, 0⟩)], none⟩
    ⟨"binance", 50000, 999000⟩ 1000000 (by decide)
  exact ⟨h.1, h.2.1 ⟨49000, 0⟩ (by decide), h.2.2 ⟨50000, none, 1, 1000000⟩ (by decide)⟩

/-- Claim C10: every published `PriceState` carries the median of the
latest per-venue prices whose age is strictly below the staleness bound
(`medianOf` averages the two middle sorted values for an even count),
and a tick arriving while every stored entry is stale publishes
nothing. -/
theorem c10_median_publish (stale : ℕ) (st : AggState) (tick : PriceTick) (now : ℕ)
    (hsrc : tick.source ≠ "deribit_iv") :
    (∀ ps, (stepTick stale st tick now).2 = some ps →
      ps.spot_price = medianOf (freshPrices stale now (postInsertFeeds st tick)) ∧
      freshPrices stale now (postInsertFeeds st tick) ≠ []) ∧
    ((∀ p ∈ postInsertFeeds st tick, entryFresh stale now p.2 = false) →
      (stepTick stale st tick now).2 = none) := by
  have h := stepTick_publish_spec stale st tick now hsrc
  refine ⟨fun ps hps => ⟨?_, ?_⟩, fun hall => ?_⟩
  · rw [h.2 ps hps]
  · intro hnil
    have hn := h.1.mpr hnil
    rw [hps] at hn
    exact Option.noConfusion hn
  · apply h.1.mpr
    unfold freshPrices
    rw [List.map_eq_nil_iff, List.filter_eq_nil_iff]
    intro p hp
    simp [hall p hp]

/-- Claim C10, witness: two fresh venues (even count), published spot is
the mean of the two middle sorted prices, `(100 + 102) / 2 = 101`. -/
theorem c10_median_publish_witness :
    (⟨101, none, 2, 5000⟩ : PriceState).spot_price =
      medianOf (freshPrices 30 5000
        (postInsertFeeds ⟨[("kraken", ⟨100, 4000⟩)], none⟩ ⟨"binance", 102, 4500⟩)) ∧
    freshPrices 30 5000
      (postInsertFeeds ⟨[("kraken", ⟨100, 4000⟩)], none⟩ ⟨"binance", 102, 4500⟩) ≠ [] :=
  (c10_median_publish 30 ⟨[("kraken", ⟨100, 4000⟩)], none⟩ ⟨"binance", 102, 4500⟩ 5000
    (by decide)).1 ⟨101, none, 2, 5000⟩ (by
      simp [stepTick, postInsertFeeds, insertFeed, freshPrices, entryFresh,
        medianOf, List.insertionSort, List.orderedInsert, List.filter, List.isEmpty]
      norm_num)

theorem can_trade_killed_same_day (s : RiskState) (h : s.killed = true) :
    can_trade s s.day_start_epoch = (false, s) := by
  unfold can_trade maybe_reset_day
  simp [h]

theorem killed_sticky_run (s : RiskState) (ops : List RiskOp)
    (h1 : s.killed = true) (h2 : opsSameDay s.day_start_epoch ops = true) :
    (∀ b ∈ canTradeResults s ops, b = false) ∧ (riskRun s ops).killed = true := by
  induction ops generalizing s with
  | nil => exact ⟨by simp [canTradeResults], by simpa [riskRun] using h1⟩
  | cons op rest ih =>
    cases op with
    | canTrade today =>
      rw [opsSameDay, Bool.and_eq_true, beq_iff_eq] at h2
      have hct : can_trade s today = (false, s) := by
        rw [h2.1]
        exact can_trade_killed_same_day s h1
      have hrest := ih s h1 h2.2
      constructor
      · intro b hb
        rw [canTradeResults, hct] at hb
        rcases List.mem_cons.mp hb with hb | hb
        · exact hb
        · exact hrest.1 b hb
      · rw [riskRun, riskStep, hct]
        exact hrest.2
    | recordFill =>
      rw [opsSameDay] at h2
      have hrest := ih (riskStep s .recordFill) (by simpa [riskStep, record_fill] using h1)
        (by simpa [riskStep, record_fill] using h2)
      exact ⟨fun b hb => hrest.1 b (by simpa [canTradeResults] using hb),
        by simpa [riskRun] using hrest.2⟩
    | recordClose pnl =>
      rw [opsSameDay] at h2
      have hrest := ih (riskStep s (.recordClose pnl)) (by simpa [riskStep, record_close] using h1)
        (by simpa [riskStep, record_close] using h2)
      exact ⟨fun b hb => hrest.1 b (by simpa [canTradeResults] using hb),
        by simpa [riskRun] using hrest.2⟩
    | updateBankroll bal =>
      rw [opsSameDay] at h2
      have hrest := ih (riskStep s (.updateBankroll bal)) (by simpa [riskStep, update_bankroll] using h1)
        (by simpa [riskStep, update_bankroll] using h2)
      exact ⟨fun b hb => hrest.1 b (by simpa [canTradeResults] using hb),
        by simpa [riskRun] using hrest.2⟩

theorem killed_cleared_only_on_rollover (s : RiskState) (op : RiskOp)
    (hk : s.killed = true) (hkf : (riskStep s op).killed = false) :
    ∃ t, op = RiskOp.canTrade t ∧ t ≠ s.day_start_epoch ∧ (riskStep s op).daily_pnl = 0 := by
  cases op with
  | canTrade today =>
    refine ⟨today, rfl, ?_, ?_⟩
    · intro hEq
      rw [hEq] at hkf
      rw [riskStep, can_trade_killed_same_day s hk] at hkf
      rw [hk] at hkf
      exact Bool.noConfusion hkf
    · by_cases hEq : today = s.day_start_epoch
      · rw [hEq, riskStep, can_trade_killed_same_day s hk] at hkf
        rw [hk] at hkf
        exact Bool.noConfusion hkf
      · rw [riskStep] at hkf ⊢
        unfold can_trade maybe_reset_day at hkf ⊢
        rw [if_pos hEq] at hkf ⊢
        dsimp only at hkf ⊢
        split_ifs at hkf ⊢ <;> simp_all
  | recordFill =>
    simp [riskStep, record_fill, hk] at hkf
  | recordClose pnl =>
    simp [riskStep, record_close, hk] at hkf
  | updateBankroll bal =>
    simp [riskStep, update_bankroll, hk] at hkf

/-- Claim C1, evaluated at a failing input: on an iteration where every
gate passes (fair 0.60, YES mid 0.50, ask 0.51, pair sum 1.0, trading
allowed) one `Signal` is emitted, and a run of two consecutive such
iterations emits two `Signal`s for the same market — the evaluator has
no `signaled` flag and re-emits on every gates-passing iteration, so a
continuously-passing run does not produce exactly one `Signal`. -/
theorem c1_multiple_signals_per_run :
    (signalsOf (divergence_step cfg_c1 mkt_c1 none iter_c1).2).length = 1 ∧
    (signalsOf (divergence_run cfg_c1 mkt_c1 none [iter_c1, iter_c1]).2).length = 2 := by
  constructor <;>
  · simp [divergence_run, divergence_step, cfg_c1, mkt_c1, iter_c1, lookupBook,
      signalsOf, List.find?]
    norm_num [position_size, position_size_precap, edge_multiplier, abs_of_nonneg,
      List.filterMap_cons, List.filterMap_nil]

/-- Claim C2, counterexample: on `iter_c2` the evaluator emits a signal
whose limit price is the best ask 0.80, which lies outside `[0.35, 0.65]`
and differs from `min(clob_mid + 0.01, fair - 0.01) = 0.51`. -/
theorem c2_price_counterexample :
    (signalsOf (divergence_step cfg_c2 mkt_c2 none iter_c2).2).map Signal.price = [4/5] ∧
    ¬ ((4:ℚ)/5 ≤ 13/20) ∧
    (4:ℚ)/5 ≠ min ((1:ℚ)/2 + 1/100) ((3:ℚ)/5 - 1/100) := by
  refine ⟨?_, by norm_num, by rw [min_def]; norm_num⟩
  simp [divergence_step, cfg_c2, mkt_c2, iter_c2, lookupBook, signalsOf, List.find?]
  norm_num [position_size, position_size_precap, edge_multiplier, abs_of_nonneg,
    List.filterMap_cons, List.filterMap_nil]

/-- Claim C2, amended: every emitted signal's limit price is the best
ask of the side being bought (the YES ask for `BuyYes`, the NO ask for
`BuyNo`), and a candidate is rejected exactly when that ask is outside
the open interval `(0, 1)`; no `[0.35, 0.65]` band and no
`min(clob_mid + 0.01, fair - 0.01)` ceiling are applied. -/
theorem c2_signal_price_best_ask (cfg : StrategyConfig) (m : Market)
    (div : Option OpenDivergence) (it : EvalIter) (sig : Signal)
    (h : sig ∈ signalsOf (divergence_step cfg m div it).2) :
    0 < sig.price ∧ sig.price < 1 ∧
    ((sig.side = Side.buyYes ∧
        sig.price = ((lookupBook it.books m.yes_token).map TokenBook.best_ask).getD 0) ∨
     (sig.side = Side.buyNo ∧
        sig.price = ((lookupBook it.books m.no_token).map TokenBook.best_ask).getD 0)) := by
  unfold divergence_step at h
  rcases hyb : lookupBook it.books m.yes_token with _ | yb <;> rw [hyb] at h
  · simp [signalsOf] at h
  · dsimp only at h
    rcases div with _ | d <;>
      split_ifs at h with h1 h2 h3 h4 h5 <;> try simp [signalsOf] at h
    all_goals rename_i hprice
    all_goals subst h
    all_goals push_neg at hprice
    · exact ⟨hprice.1, hprice.2, Or.inl ⟨rfl, rfl⟩⟩
    · exact ⟨hprice.1, hprice.2, Or.inr ⟨rfl, rfl⟩⟩
    · exact ⟨hprice.1, hprice.2, Or.inl ⟨rfl, rfl⟩⟩
    · exact ⟨hprice.1, hprice.2, Or.inr ⟨rfl, rfl⟩⟩

/-- Claim C2, witness for the amended theorem: the signal emitted on
`iter_c2` buys YES at the YES best ask `0.80 ∈ (0, 1)`. -/
theorem c2_signal_price_best_ask_witness :
    0 < sig_c2.price ∧ sig_c2.price < 1 ∧
    ((sig_c2.side = Side.buyYes ∧
        sig_c2.price =
          ((lookupBook iter_c2.books mkt_c2.yes_token).map TokenBook.best_ask).getD 0) ∨
     (sig_c2.side = Side.buyNo ∧
        sig_c2.price =
          ((lookupBook iter_c2.books mkt_c2.no_token).map TokenBook.best_ask).getD 0)) := by
  apply c2_signal_price_best_ask cfg_c2 mkt_c2 none iter_c2 sig_c2
  simp [divergence_step, cfg_c2, mkt_c2, iter_c2, sig_c2, lookupBook, signalsOf, List.find?]
  norm_num [position_size, position_size_precap, edge_multiplier, abs_of_nonneg,
    List.filterMap_cons, List.filterMap_nil]

/-- Claim C3, evaluated against the code: the divergence evaluator's
output is invariant under any change of `late_window_guard_secs` (the
field is never read), and on a gates-passing iteration taken 10 s before
window close with a 30 s guard a `Signal` is still emitted. -/
theorem c3_no_late_window_guard :
    (∀ (cfg : StrategyConfig) (g : ℕ) (m : Market) (div : Option OpenDivergence)
        (it : EvalIter),
      divergence_step { cfg with late_window_guard_secs := g } m div it =
        divergence_step cfg m div it) ∧
    (signalsOf (divergence_step cfg_c3 mkt_c3 none iter_c3).2).length = 1 := by
  constructor
  · intro cfg g m div it
    obtain ⟨a, b, c, d, e, f, g', h', i⟩ := cfg
    rfl
  · simp [divergence_step, cfg_c3, mkt_c3, iter_c3, lookupBook, signalsOf, List.find?]
    norm_num [position_size, position_size_precap, edge_multiplier, abs_of_nonneg,
      List.filterMap_cons, List.filterMap_nil]

/-- Claim C5: on any evaluator iteration where both the YES mid and the
NO mid are positive and `|1 - (yes_mid + no_mid)| > 0.15`, no `Signal`
is emitted for that market (the code's `0.90`/`1.10` gate is strictly
tighter than the claimed `0.85`/`1.15` bound, so every claimed rejection
happens). -/
theorem c5_pair_sum_gate (cfg : StrategyConfig) (m : Market)
    (div : Option OpenDivergence) (it : EvalIter) (yb nb : TokenBook)
    (hy : lookupBook it.books m.yes_token = some yb)
    (hn : lookupBook it.books m.no_token = some nb)
    (hy0 : 0 < yb.mid) (hn0 : 0 < nb.mid)
    (hsum : |1 - (yb.mid + nb.mid)| > 3/20) :
    signalsOf (divergence_step cfg m div it).2 = [] := by
  have hcase : yb.mid + nb.mid < 9/10 ∨ yb.mid + nb.mid > 11/10 := by
    rcases lt_abs.mp hsum with h | h
    · left; linarith
    · right; linarith
  have hcond : yb.mid + nb.mid > 0 ∧ (yb.mid + nb.mid < 9/10 ∨ yb.mid + nb.mid > 11/10) :=
    ⟨by linarith, hcase⟩
  unfold divergence_step
  rw [hy, hn]
  simp only [Option.map_some', Option.getD_some]
  rw [if_pos hy0, if_pos hcond]
  rfl

/-- Claim C5, witness: YES mid 0.40 and NO mid 0.30 give pair sum 0.70
with `|1 - 0.70| = 0.30 > 0.15`; the evaluator emits nothing. -/
theorem c5_pair_sum_gate_witness :
    signalsOf (divergence_step cfg_c5 mkt_c5 none iter_c5).2 = [] := by
  refine c5_pair_sum_gate cfg_c5 mkt_c5 none iter_c5 ⟨7/20, 9/20, 2/5, 0⟩ ⟨1/4, 7/20, 3/10, 0⟩
    rfl rfl (by norm_num) (by norm_num) ?_
  norm_num [abs_of_nonneg]

/-- Claim C8: once `can_trade` has latched `killed = true`, every later
`can_trade` call that observes the same day epoch returns `false` and
`killed` stays `true` across any same-day operation sequence; and any
step that clears `killed` is a `can_trade` call observing a different
day epoch, which also resets `daily_pnl` to zero. -/
theorem c8_kill_switch_sticky (s : RiskState) (ops : List RiskOp)
    (h1 : s.killed = true) (h2 : opsSameDay s.day_start_epoch ops = true) :
    ((∀ b ∈ canTradeResults s ops, b = false) ∧ (riskRun s ops).killed = true) ∧
    (∀ (s' : RiskState) (op : RiskOp), s'.killed = true → (riskStep s' op).killed = false →
      ∃ t, op = RiskOp.canTrade t ∧ t ≠ s'.day_start_epoch ∧
        (riskStep s' op).daily_pnl = 0) :=
  ⟨killed_sticky_run s ops h1 h2,
   fun s' op hk hkf => killed_cleared_only_on_rollover s' op hk hkf⟩

/-- Claim C8, witness: from the killed state `risk_c8`, both same-day
`can_trade` calls in `ops_c8` return `false` and `killed` stays latched. -/
theorem c8_kill_switch_sticky_witness :
    (can_trade risk_c8 19000).1 = false ∧ (riskRun risk_c8 ops_c8).killed = true := by
  have h := c8_kill_switch_sticky risk_c8 ops_c8 rfl (by decide)
  exact ⟨h.1.1 _ (List.mem_cons_self _ _), h.1.2⟩

end PolymarketArb
